import Mathlib

/-!
Verification of the Artifact Reconciliation & Grid Decomposition Engine.

Shallow embedding of the Python sources:
  app/api/main.py            (list_images, wait_for_images, generate/edit endpoints)
  app/session/memory.py      (SessionMemory)
  app/tools/generate_image_tool.py (remove_white_borders, split_grid_image, naming)
  app/tools/edit_image_tool.py     (edited-artifact naming)
  app/tools/artifact_wrapper.py    (edit target resolution)

Strings are modelled through their character lists; Python's truthiness of a
string (`if message:`) is modelled as `message ≠ ""`, and Python's `a or b` on
optional strings is modelled by `pyOrStr` below.
-/

set_option autoImplicit false
set_option maxRecDepth 8192

namespace AdkAgent

/-! ### String helpers (substring search, lower-casing, splitext) -/

/-- Python `pat in s` (substring containment), on character lists. -/
def listContains (pat : List Char) : List Char → Bool
  | [] => pat.isEmpty
  | c :: t => pat.isPrefixOf (c :: t) || listContains pat t

/-- Python `pat in s` for strings. -/
def strContains (s pat : String) : Bool := listContains pat.toList s.toList

/-- Python `s.startswith(p)`. -/
def strStartsWith (s p : String) : Bool := p.toList.isPrefixOf s.toList

/-- Python `s.endswith(p)`. -/
def strEndsWith (s p : String) : Bool := p.toList.isSuffixOf s.toList

/-- Python `s.lower()` (ASCII case folding, which covers every message
the sources compare against). -/
def pyLower (s : String) : String := ⟨s.toList.map Char.toLower⟩

/-- Locate the last `'.'` of a character list: returns `some (p, q)` with
input `= p ++ '.' :: q` and no `'.'` in `q`, or `none` when there is no dot. -/
def lastDotSplit : List Char → Option (List Char × List Char)
  | [] => none
  | c :: cs =>
    match lastDotSplit cs with
    | some (p, q) => some (c :: p, q)
    | none => if c = '.' then some ([], cs) else none

/-- Python `os.path.splitext` for bare file names (no directory separators):
split at the last dot, unless every character before it is itself a dot. -/
def splitext (s : String) : String × String :=
  match lastDotSplit s.toList with
  | none => (s, "")
  | some (p, q) => if p.all (fun c => c = '.') then (s, "") else (⟨p⟩, ⟨'.' :: q⟩)

/-- Python `a or b` on optional strings: `None` and `""` are falsy. -/
def pyOrStr (a b : Option String) : Option String :=
  match a with
  | none => b
  | some s => if s = "" then b else some s

/-! ### Truth normalizer — app/api/main.py, generate_images (lines 204–233)
and edit_image (lines 317–347) -/

/-- The generic success message of the generate endpoint,
`f"Successfully generated {len(filenames)} image(s)"`. -/
def genSuccessMsg (n : Nat) : String :=
  "Successfully generated " ++ toString n ++ " image(s)"

/-- `"Error:" in message or "error" in message.lower() or "failed" in message.lower()`
(main.py line 222). -/
def genHasError (m : String) : Bool :=
  strContains m "Error:" || strContains (pyLower m) "error" ||
    strContains (pyLower m) "failed"

/-- The error-message override of the generate endpoint (main.py lines 220–226). -/
def generateNormalize (filenames : List String) (message : String) : String :=
  if message ≠ "" ∧ genHasError message = true then genSuccessMsg filenames.length
  else if message = "" then genSuccessMsg filenames.length
  else message

/-- The HTTPException detail built when no images were observed
(main.py lines 205–212). -/
def genFailDetail (allFiles : List String) : String :=
  "No images generated. " ++
    (if allFiles.isEmpty then "No PNG files found in uploads directory."
     else "Found " ++ toString allFiles.length ++ " other image(s) in uploads directory.")

/-- Verdict, user message and returned file list of the generate endpoint as a
function of the second listing `allFiles`, the polled `filenames` and the
delegation `message` (main.py lines 204–233).  An HTTPException is modelled as
verdict `false` carrying its detail string. -/
def generateOutcome (allFiles filenames : List String) (message : String) :
    Bool × String × List String :=
  if filenames.isEmpty then (false, genFailDetail allFiles, [])
  else (true, generateNormalize filenames message, filenames.take 4)

/-- The generic success message of the edit endpoint. -/
def editSuccessMsg : String := "Image edited successfully"

/-- The edit endpoint's error-indicator test (main.py lines 329–336). -/
def editHasError (m : String) : Bool :=
  strContains m "Error:" || strContains (pyLower m) "error" ||
    strContains (pyLower m) "failed" || strContains (pyLower m) "cannot edit" ||
    strContains (pyLower m) "only generate" || strContains m "I cannot"

/-- The error-message override of the edit endpoint (main.py lines 327–340). -/
def editNormalize (message : String) : String :=
  if message ≠ "" ∧ editHasError message = true then editSuccessMsg
  else if message = "" then editSuccessMsg
  else message

/-- Verdict and user message of the edit endpoint as a function of the polled
`edited_` files and the delegation `message` (main.py lines 317–347). -/
def editOutcome (editedFiles : List String) (message : String) : Bool × String :=
  match editedFiles with
  | [] => (false, "Edited image not found. The agent may still be processing.")
  | f :: _ => (true, if f ≠ "" then editNormalize message else message)

/-! ### Artifact store and reconciliation poller — app/api/main.py
(list_images lines 88–102, wait_for_images lines 105–122) -/

/-- The uploads directory in listing order: pairs of file name and storage
modification time. -/
abbrev Store := List (String × Nat)

/-- The filter of `list_images`: `.png` suffix and the selector prefix
(main.py line 93). -/
def matchesFilter (sel : String) (f : String × Nat) : Bool :=
  strEndsWith f.1 ".png" && strStartsWith f.1 sel

/-- Stable descending insertion by modification time (a new element goes after
every element with an equal or larger mtime, as Python's stable
`sort(reverse=True)` keeps equal keys in listing order). -/
def insertDesc (x : String × Nat) : List (String × Nat) → List (String × Nat)
  | [] => [x]
  | y :: ys => if y.2 < x.2 then x :: y :: ys else y :: insertDesc x ys

/-- Stable sort by modification time, newest first. -/
def sortByMtimeDesc (l : List (String × Nat)) : List (String × Nat) :=
  l.foldl (fun acc x => insertDesc x acc) []

/-- `list_images(prefix, limit)` (main.py lines 88–102). -/
def list_images (store : Store) (sel : String) (limit : Nat) : List String :=
  (((sortByMtimeDesc (store.filter (matchesFilter sel))).map Prod.fst).take limit)

/-- One state of the `wait_for_images` loop.  `storeAt t` is the uploads
directory as visible `t` seconds after the first listing; `fuel` bounds the
number of remaining sleeps (the loop body runs at most `maxWait` times when
`pollInterval ≥ 1`).  Returns the final `filenames` together with the final
value of the `waited` counter. -/
def waitAux (storeAt : Nat → Store) (sel : String) (limit maxWait pollInterval : Nat) :
    Nat → Nat → List String × Nat
  | fuel, waited =>
    let filenames := list_images (storeAt waited) sel limit
    if filenames.isEmpty ∧ waited < maxWait then
      match fuel with
      | 0 => (filenames, waited)
      | fuel' + 1 => waitAux storeAt sel limit maxWait pollInterval fuel' (waited + pollInterval)
    else (filenames, waited)

/-- `wait_for_images(prefix, limit, max_wait_time, poll_interval)`
(main.py lines 105–122), instrumented with the final `waited` value. -/
def wait_for_images (storeAt : Nat → Store) (sel : String)
    (limit maxWait pollInterval : Nat) : List String × Nat :=
  waitAux storeAt sel limit maxWait pollInterval maxWait 0

/-- The poll issued by the generate endpoint:
`wait_for_images(prefix="", limit=4)` (main.py line 202). -/
def generateEndpointPoll (storeAt : Nat → Store) : List String × Nat :=
  wait_for_images storeAt "" 4 90 2

/-- The selector prefix of the edit endpoint's poll (main.py line 315). -/
def editSelector : String := "edited_"

/-- The poll issued by the edit endpoint:
`wait_for_images(prefix="edited_", limit=1)` (main.py line 315). -/
def editEndpointPoll (storeAt : Nat → Store) : List String × Nat :=
  wait_for_images storeAt editSelector 1 90 2

/-! ### Session memory — app/session/memory.py -/

/-- `SessionMemory` (memory.py lines 5–41). -/
structure SessionMemory where
  last_generated : Option String
  last_edited : Option String
  recent_images : List String

/-- The fresh memory built by `SessionMemory.__init__`. -/
def initMemory : SessionMemory := ⟨none, none, []⟩

/-- The recent-list update shared by both setters
(memory.py lines 16–19 and 24–27): insert at the front if absent, then keep
only the first 10 entries. -/
def recentInsert (l : List String) (f : String) : List String :=
  if f ∈ l then l else (f :: l).take 10

/-- `SessionMemory.set_last_generated` (memory.py lines 13–19). -/
def SessionMemory.set_last_generated (m : SessionMemory) (f : String) : SessionMemory :=
  { m with last_generated := some f, recent_images := recentInsert m.recent_images f }

/-- `SessionMemory.set_last_edited` (memory.py lines 21–27). -/
def SessionMemory.set_last_edited (m : SessionMemory) (f : String) : SessionMemory :=
  { m with last_edited := some f, recent_images := recentInsert m.recent_images f }

/-- `SessionMemory.get_last_generated` (memory.py lines 29–31). -/
def SessionMemory.get_last_generated (m : SessionMemory) : Option String :=
  m.last_generated

/-- `SessionMemory.get_most_recent` (memory.py lines 37–41):
the head of `recent`, else `last_generated or last_edited`. -/
def SessionMemory.get_most_recent (m : SessionMemory) : Option String :=
  match m.recent_images with
  | r :: _ => some r
  | [] => pyOrStr m.last_generated m.last_edited

/-- Edit-target resolution of the edit endpoint (main.py lines 253–258):
`request.image_filename or memory.get_last_generated() or memory.get_most_recent()`.
The same chain is performed sequentially in
`edit_image_with_artifacts` (artifact_wrapper.py lines 98–110). -/
def resolveEditTarget (reqFilename : Option String) (m : SessionMemory) : Option String :=
  pyOrStr reqFilename (pyOrStr m.get_last_generated m.get_most_recent)

/-- A ledger mutation: the endpoints call `set_last_generated` after a
generation and `set_last_edited` after an edit. -/
inductive MemOp where
  | gen (f : String)
  | edit (f : String)

/-- The file name carried by a ledger mutation. -/
def MemOp.name : MemOp → String
  | .gen f => f
  | .edit f => f

/-- Apply one ledger mutation. -/
def applyOp (m : SessionMemory) (op : MemOp) : SessionMemory :=
  match op with
  | .gen f => m.set_last_generated f
  | .edit f => m.set_last_edited f

/-- The memory reached from a fresh session by a sequence of mutations. -/
def runOps (ops : List MemOp) : SessionMemory := ops.foldl applyOp initMemory

/-- The recent list reached from an empty list by a sequence of insertions. -/
def recentRun (ws : List String) : List String := ws.foldl recentInsert []

/-! ### Artifact naming — app/tools/generate_image_tool.py (lines 168–194,
97–110) and app/tools/edit_image_tool.py (lines 126–129) -/

/-- `ts = f"{ts}_{unique_id}"` (generate_image_tool.py line 170): the
timestamp is extended with the 8-character random disambiguator. -/
def tsFull (timestamp uid : String) : String := timestamp ++ "_" ++ uid

/-- `name = f"image_{ts}_{i+1}.png"` (generate_image_tool.py line 194). -/
def genCompositeName (ts : String) (i : Nat) : String :=
  "image_" ++ ts ++ "_" ++ toString (i + 1) ++ ".png"

/-- `quad_filename = f"{base_name}_{i}{ext}"` with
`base_name, ext = os.path.splitext(filename)`
(generate_image_tool.py lines 97 and 110). -/
def quadName (filename : String) (ordinal : Nat) : String :=
  (splitext filename).1 ++ "_" ++ toString ordinal ++ (splitext filename).2

/-- `edited_filename = f"edited_{ts}_{name}{ext}"` with
`name, ext = os.path.splitext(original_filename)`
(edit_image_tool.py lines 127–129). -/
def editedName (ts original : String) : String :=
  "edited_" ++ ts ++ "_" ++ (splitext original).1 ++ (splitext original).2

/-- Modelled from the spec (§6 naming convention): the published pattern for a
generated quadrant, `image_<timestamp>_<random8>_<i>_<ordinal>.<ext>`. -/
def specGenQuadName (timestamp uid : String) (i ordinal : Nat) (ext : String) : String :=
  "image_" ++ timestamp ++ "_" ++ uid ++ "_" ++ toString i ++ "_" ++
    toString ordinal ++ ext

/-- Modelled from the spec (§6 naming convention): the published pattern for an
edited artifact, `edited_<timestamp>_<sourceBaseName>.<ext>`. -/
def specEditedName (timestamp sourceBaseName ext : String) : String :=
  "edited_" ++ timestamp ++ "_" ++ sourceBaseName ++ ext

/-! ### Images, border trim and grid decomposition —
app/tools/generate_image_tool.py (remove_white_borders lines 31–64,
split_grid_image lines 67–124) -/

/-- An RGB image: dimensions plus a pixel map.  `pixel x y` is the
`(r, g, b)` triple at column `x`, row `y`. -/
structure Image where
  width : Nat
  height : Nat
  pixel : Nat → Nat → Nat × Nat × Nat

/-- `r < threshold or g < threshold or b < threshold`
(generate_image_tool.py line 47): the pixel counts as content. -/
def isContent (threshold : Nat) (p : Nat × Nat × Nat) : Bool :=
  decide (p.1 < threshold) || decide (p.2.1 < threshold) || decide (p.2.2 < threshold)

/-- The pixel coordinates in scan order (`for y ...: for x ...`,
generate_image_tool.py lines 43–44). -/
def coords (img : Image) : List (Nat × Nat) :=
  (List.range img.height).flatMap (fun y => (List.range img.width).map (fun x => (x, y)))

/-- The coordinates whose pixel is content. -/
def contentCoords (img : Image) (threshold : Nat) : List (Nat × Nat) :=
  (coords img).filter (fun c => isContent threshold (img.pixel c.1 c.2))

/-- The four running extrema of the bounding-box scan. -/
structure Bounds where
  minX : Nat
  minY : Nat
  maxX : Nat
  maxY : Nat

/-- One step of the bounding-box scan (generate_image_tool.py lines 45–51). -/
def boundsStep (threshold : Nat) (img : Image) (b : Bounds) (c : Nat × Nat) : Bounds :=
  if isContent threshold (img.pixel c.1 c.2) then
    ⟨min b.minX c.1, min b.minY c.2, max b.maxX c.1, max b.maxY c.2⟩
  else b

/-- The full scan, started from
`min_x, min_y = width, height; max_x, max_y = 0, 0`
(generate_image_tool.py lines 40–41). -/
def scanBounds (img : Image) (threshold : Nat) : Bounds :=
  (coords img).foldl (boundsStep threshold img) ⟨img.width, img.height, 0, 0⟩

/-- PIL `image.crop((left, upper, right, lower))` with the box inside the
image: the right and lower edges are exclusive, so the result is
`(right - left) × (lower - upper)` and samples `(left + x, upper + y)`. -/
def crop (img : Image) (left upper right lower : Nat) : Image :=
  ⟨right - left, lower - upper, fun x y => img.pixel (left + x) (upper + y)⟩

/-- `remove_white_borders(image, threshold=240)`
(generate_image_tool.py lines 31–64).  `min_x - 5` is Nat subtraction, which
is exactly Python's `max(0, min_x - padding)` clamp. -/
def remove_white_borders (img : Image) (threshold : Nat) : Image :=
  let b := scanBounds img threshold
  if b.maxX ≤ b.minX ∨ b.maxY ≤ b.minY then img
  else crop img (b.minX - 5) (b.minY - 5)
    (min img.width (b.maxX + 5)) (min img.height (b.maxY + 5))

/-- The four crop origins
`[(0, 0), (quad_width, 0), (0, quad_height), (quad_width, quad_height)]`
(generate_image_tool.py line 102), row-major: top-left, top-right,
bottom-left, bottom-right. -/
def quadSpecs (qw qh : Nat) : List (Nat × Nat) :=
  [(0, 0), (qw, 0), (0, qh), (qw, qh)]

/-- The origin of the `k`-th quadrant (0-based). -/
def quadOrigin (qw qh k : Nat) : Nat × Nat := (quadSpecs qw qh).getD k (0, 0)

/-- The untrimmed `k`-th quadrant crop
`grid_image.crop((x, y, x + quad_width, y + quad_height))`
(generate_image_tool.py line 104). -/
def gridQuadrant (img : Image) (k : Nat) : Image :=
  let qw := img.width / 2
  let qh := img.height / 2
  let o := quadOrigin qw qh k
  crop img o.1 o.2 (o.1 + qw) (o.2 + qh)

/-- `split_grid_image` (generate_image_tool.py lines 87–124): the list of
persisted (name, image) pairs, in loop order; each quadrant is cropped, then
passed through `remove_white_borders`, and saved as
`{base_name}_{i}{ext}` for `i = 1..4`. -/
def split_grid_image (img : Image) (filename : String) : List (String × Image) :=
  let be := splitext filename
  ((quadSpecs (img.width / 2) (img.height / 2)).enum).map
    (fun p => (be.1 ++ "_" ++ toString (p.1 + 1) ++ be.2,
      remove_white_borders (gridQuadrant img p.1) 240))

/-- Membership of `(x, y)` in the `k`-th quadrant region of an image split
into `qw × qh` quadrants. -/
def inQuad (qw qh k x y : Nat) : Prop :=
  (quadOrigin qw qh k).1 ≤ x ∧ x < (quadOrigin qw qh k).1 + qw ∧
    (quadOrigin qw qh k).2 ≤ y ∧ y < (quadOrigin qw qh k).2 + qh

/-- Fold of `min` over the image of `f`, used to characterise the scan. -/
def foldMin {α : Type} (f : α → Nat) (a : Nat) (l : List α) : Nat :=
  l.foldl (fun m c => min m (f c)) a

/-- Fold of `max` over the image of `f`, used to characterise the scan. -/
def foldMax {α : Type} (f : α → Nat) (a : Nat) (l : List α) : Nat :=
  l.foldl (fun m c => max m (f c)) a

/-- Modelled from the spec (§4.1 step 3 / §8): the border trim as the spec
words it — crop to the minimal content bounding box expanded by exactly
5 pixels of padding on each of the four sides, clamped to the image bounds,
whenever at least one content pixel exists.  The inclusive box
`[minX-5, maxX+5] × [minY-5, maxY+5] ∩ bounds` becomes the half-open crop
`[minX-5, min W (maxX+6)) × [minY-5, min H (maxY+6))`. -/
def trimSpec (img : Image) (threshold : Nat) : Image :=
  match contentCoords img threshold with
  | [] => img
  | c :: cs =>
    let xmin := foldMin Prod.fst c.1 cs
    let xmax := foldMax Prod.fst c.1 cs
    let ymin := foldMin Prod.snd c.2 cs
    let ymax := foldMax Prod.snd c.2 cs
    crop img (xmin - 5) (ymin - 5) (min img.width (xmax + 6)) (min img.height (ymax + 6))

/-! Concrete inputs used by witnesses and counterexamples. -/

/-- An 8×8 white image with a single black pixel at (3, 4). -/
def imgDot : Image :=
  ⟨8, 8, fun x y => if x = 3 ∧ y = 4 then (0, 0, 0) else (255, 255, 255)⟩

/-- A 12×12 white image with black pixels at (2, 3) and (4, 6). -/
def imgPair : Image :=
  ⟨12, 12, fun x y => if (x = 2 ∧ y = 3) ∨ (x = 4 ∧ y = 6) then (0, 0, 0)
    else (255, 255, 255)⟩

/-- A 20×20 white image with a single black pixel at (10, 10). -/
def imgCxDot : Image :=
  ⟨20, 20, fun x y => if x = 10 ∧ y = 10 then (0, 0, 0) else (255, 255, 255)⟩

/-- A 4×4 composite whose pixels are all non-white (all content). -/
def imgGrid4 : Image := ⟨4, 4, fun x y => (10 * x, 10 * y, 0)⟩

/-- Twelve ledger insertions: 11 distinct names, with "a" re-inserted after
its eviction. -/
def evictSeq : List String :=
  ["a", "b", "c", "d", "e", "f", "g", "h", "i", "j", "k", "a"]

/-- Modelled from the spec (claim wording for the recency ledger): the names
ranked by first insertion, oldest first. -/
def firstInsertOrder (ws : List String) : List String :=
  ws.foldl (fun acc w => if w ∈ acc then acc else acc ++ [w]) []

/-- Modelled from the spec (claim wording for the recency ledger): the 10 most
recently first-inserted distinct names, most-recent-first. -/
def specRecent (ws : List String) : List String :=
  (firstInsertOrder ws).reverse.take 10

/-! ## Supporting lemmas -/

/-! ### Folded extrema -/

theorem foldMin_le_init {α : Type} (f : α → Nat) :
    ∀ (l : List α) (a : Nat), foldMin f a l ≤ a
  | [], a => le_refl a
  | x :: l, a => le_trans (foldMin_le_init f l (min a (f x))) (min_le_left _ _)

theorem foldMax_ge_init {α : Type} (f : α → Nat) :
    ∀ (l : List α) (a : Nat), a ≤ foldMax f a l
  | [], a => le_refl a
  | x :: l, a => le_trans (le_max_left _ _) (foldMax_ge_init f l (max a (f x)))

theorem foldMin_le_of_mem {α : Type} (f : α → Nat) :
    ∀ (l : List α) (a : Nat) (x : α), x ∈ l → foldMin f a l ≤ f x := by
  intro l
  induction l with
  | nil => intro a x h; cases h
  | cons y l ih =>
    intro a x h
    rcases List.mem_cons.mp h with rfl | h
    · exact le_trans (foldMin_le_init f l (min a (f x))) (min_le_right _ _)
    · exact ih (min a (f y)) x h

theorem foldMax_ge_of_mem {α : Type} (f : α → Nat) :
    ∀ (l : List α) (a : Nat) (x : α), x ∈ l → f x ≤ foldMax f a l := by
  intro l
  induction l with
  | nil => intro a x h; cases h
  | cons y l ih =>
    intro a x h
    rcases List.mem_cons.mp h with rfl | h
    · exact le_trans (le_max_right _ _) (foldMax_ge_init f l (max a (f x)))
    · exact ih (max a (f y)) x h

theorem foldMin_eq_init_or_mem {α : Type} (f : α → Nat) :
    ∀ (l : List α) (a : Nat), foldMin f a l = a ∨ ∃ x ∈ l, foldMin f a l = f x := by
  intro l
  induction l with
  | nil => intro a; exact Or.inl rfl
  | cons y l ih =>
    intro a
    have hstep : foldMin f a (y :: l) = foldMin f (min a (f y)) l := rfl
    rcases ih (min a (f y)) with h | ⟨x, hx, h⟩
    · rcases min_choice a (f y) with hm | hm
      · exact Or.inl (by rw [hstep, h, hm])
      · exact Or.inr ⟨y, List.mem_cons_self y l, by rw [hstep, h, hm]⟩
    · exact Or.inr ⟨x, List.mem_cons_of_mem y hx, by rw [hstep, h]⟩

theorem foldMax_eq_init_or_mem {α : Type} (f : α → Nat) :
    ∀ (l : List α) (a : Nat), foldMax f a l = a ∨ ∃ x ∈ l, foldMax f a l = f x := by
  intro l
  induction l with
  | nil => intro a; exact Or.inl rfl
  | cons y l ih =>
    intro a
    have hstep : foldMax f a (y :: l) = foldMax f (max a (f y)) l := rfl
    rcases ih (max a (f y)) with h | ⟨x, hx, h⟩
    · rcases max_choice a (f y) with hm | hm
      · exact Or.inl (by rw [hstep, h, hm])
      · exact Or.inr ⟨y, List.mem_cons_self y l, by rw [hstep, h, hm]⟩
    · exact Or.inr ⟨x, List.mem_cons_of_mem y hx, by rw [hstep, h]⟩

/-! ### The bounding-box scan projects to folded extrema over the content -/

theorem foldl_boundsStep_eq (t : Nat) (img : Image) :
    ∀ (l : List (Nat × Nat)) (b : Bounds),
      l.foldl (boundsStep t img) b =
        ⟨foldMin Prod.fst b.minX (l.filter (fun c => isContent t (img.pixel c.1 c.2))),
         foldMin Prod.snd b.minY (l.filter (fun c => isContent t (img.pixel c.1 c.2))),
         foldMax Prod.fst b.maxX (l.filter (fun c => isContent t (img.pixel c.1 c.2))),
         foldMax Prod.snd b.maxY (l.filter (fun c => isContent t (img.pixel c.1 c.2)))⟩ := by
  intro l
  induction l with
  | nil => intro b; rfl
  | cons c l ih =>
    intro b
    by_cases hc : isContent t (img.pixel c.1 c.2) = true
    · have hb : boundsStep t img b c =
          ⟨min b.minX c.1, min b.minY c.2, max b.maxX c.1, max b.maxY c.2⟩ :=
        if_pos hc
      have hf : List.filter (fun d => isContent t (img.pixel d.1 d.2)) (c :: l) =
          c :: List.filter (fun d => isContent t (img.pixel d.1 d.2)) l := by
        rw [List.filter_cons, if_pos hc]
      rw [List.foldl_cons, hb, hf]
      exact ih _
    · have hb : boundsStep t img b c = b := if_neg hc
      have hf : List.filter (fun d => isContent t (img.pixel d.1 d.2)) (c :: l) =
          List.filter (fun d => isContent t (img.pixel d.1 d.2)) l := by
        rw [List.filter_cons, if_neg hc]
      rw [List.foldl_cons, hb, hf]
      exact ih b

theorem scanBounds_minX (img : Image) (t : Nat) :
    (scanBounds img t).minX = foldMin Prod.fst img.width (contentCoords img t) := by
  rw [scanBounds, foldl_boundsStep_eq]
  rfl

theorem scanBounds_minY (img : Image) (t : Nat) :
    (scanBounds img t).minY = foldMin Prod.snd img.height (contentCoords img t) := by
  rw [scanBounds, foldl_boundsStep_eq]
  rfl

theorem scanBounds_maxX (img : Image) (t : Nat) :
    (scanBounds img t).maxX = foldMax Prod.fst 0 (contentCoords img t) := by
  rw [scanBounds, foldl_boundsStep_eq]
  rfl

theorem scanBounds_maxY (img : Image) (t : Nat) :
    (scanBounds img t).maxY = foldMax Prod.snd 0 (contentCoords img t) := by
  rw [scanBounds, foldl_boundsStep_eq]
  rfl

theorem mem_coords {img : Image} {c : Nat × Nat} (h : c ∈ coords img) :
    c.1 < img.width ∧ c.2 < img.height := by
  simp only [coords, List.mem_flatMap, List.mem_map, List.mem_range] at h
  obtain ⟨y, hy, x, hx, rfl⟩ := h
  exact ⟨hx, hy⟩

theorem mem_contentCoords {img : Image} {t : Nat} {c : Nat × Nat}
    (h : c ∈ contentCoords img t) :
    c ∈ coords img ∧ isContent t (img.pixel c.1 c.2) = true := by
  have h2 := List.mem_filter.mp h
  exact ⟨h2.1, h2.2⟩

/-! ### The polling loop -/

theorem waitAux_spec (storeAt : Nat → Store) (sel : String)
    (limit maxWait pollInterval : Nat) (hpi : 1 ≤ pollInterval) :
    ∀ (fuel waited : Nat), maxWait ≤ fuel + waited →
      (waitAux storeAt sel limit maxWait pollInterval fuel waited).1 =
          list_images (storeAt (waitAux storeAt sel limit maxWait pollInterval fuel waited).2)
            sel limit
        ∧ ((waitAux storeAt sel limit maxWait pollInterval fuel waited).1 = [] →
            maxWait ≤ (waitAux storeAt sel limit maxWait pollInterval fuel waited).2)
        ∧ ∃ k, (waitAux storeAt sel limit maxWait pollInterval fuel waited).2 =
              waited + k * pollInterval
            ∧ ∀ j, j < k →
              list_images (storeAt (waited + j * pollInterval)) sel limit = [] := by
  intro fuel
  induction fuel with
  | zero =>
    intro waited hw
    have hr : waitAux storeAt sel limit maxWait pollInterval 0 waited =
        (list_images (storeAt waited) sel limit, waited) := by
      rw [waitAux]
      split
      · rfl
      · rfl
    rw [hr]
    refine ⟨rfl, fun _ => by omega, 0, by omega, fun j hj => absurd hj (Nat.not_lt_zero j)⟩
  | succ fuel ih =>
    intro waited hw
    by_cases hcond : (list_images (storeAt waited) sel limit).isEmpty = true ∧ waited < maxWait
    · have hr : waitAux storeAt sel limit maxWait pollInterval (fuel + 1) waited =
          waitAux storeAt sel limit maxWait pollInterval fuel (waited + pollInterval) := by
        rw [waitAux]
        rw [if_pos hcond]
      have hempty : list_images (storeAt waited) sel limit = [] :=
        List.isEmpty_iff.mp hcond.1
      obtain ⟨h1, h2, k, hk, hpolls⟩ := ih (waited + pollInterval) (by omega)
      rw [hr]
      refine ⟨h1, h2, k + 1, ?_, ?_⟩
      · rw [hk, Nat.succ_mul]
        omega
      · intro j hj
        cases j with
        | zero => simpa using hempty
        | succ j' =>
          have := hpolls j' (by omega)
          have harith : waited + (j' + 1) * pollInterval =
              waited + pollInterval + j' * pollInterval := by
            rw [Nat.succ_mul]
            omega
          rw [harith]
          exact this
    · have hr : waitAux storeAt sel limit maxWait pollInterval (fuel + 1) waited =
          (list_images (storeAt waited) sel limit, waited) := by
        rw [waitAux]
        rw [if_neg hcond]
      rw [hr]
      refine ⟨rfl, ?_, 0, by omega, fun j hj => absurd hj (Nat.not_lt_zero j)⟩
      intro hnil
      by_contra hlt
      exact hcond ⟨List.isEmpty_iff.mpr hnil, by omega⟩

/-! ### The recent-images list -/

theorem recentInsert_of_mem {l : List String} {x : String} (h : x ∈ l) :
    recentInsert l x = l := if_pos h

theorem recentInsert_ne_nil (l : List String) (x : String) : recentInsert l x ≠ [] := by
  unfold recentInsert
  split
  · intro hnil
    subst hnil
    simp_all
  · intro hnil
    have : (x :: l).take 10 = x :: l.take 9 := rfl
    rw [this] at hnil
    exact List.cons_ne_nil x _ hnil

theorem foldl_recentInsert_invariant :
    ∀ (ws : List String) (l : List String), l.length ≤ 10 → l.Nodup →
      (ws.foldl recentInsert l).length ≤ 10 ∧ (ws.foldl recentInsert l).Nodup := by
  intro ws
  induction ws with
  | nil => intro l h1 h2; exact ⟨h1, h2⟩
  | cons w ws ih =>
    intro l h1 h2
    rw [List.foldl_cons]
    by_cases hw : w ∈ l
    · rw [recentInsert_of_mem hw]
      exact ih l h1 h2
    · have hins : recentInsert l w = (w :: l).take 10 := if_neg hw
      rw [hins]
      refine ih _ ?_ ?_
      · exact le_trans (List.length_take_le 10 (w :: l)) (le_refl 10)
      · exact (List.nodup_cons.mpr ⟨hw, h2⟩).sublist (List.take_sublist 10 (w :: l))

theorem take_append_take {α : Type} (xs ys : List α) (n : Nat) :
    (xs ++ ys.take n).take n = (xs ++ ys).take n := by
  rw [List.take_append_eq_append_take, List.take_append_eq_append_take, List.take_take]
  congr 1
  exact congrArg ys.take (Nat.min_eq_left (Nat.sub_le n xs.length))

theorem foldl_recentInsert_distinct :
    ∀ (ws : List String) (acc : List String), ws.Nodup → (∀ w ∈ ws, w ∉ acc) →
      acc.length ≤ 10 → ws.foldl recentInsert acc = (ws.reverse ++ acc).take 10 := by
  intro ws
  induction ws with
  | nil =>
    intro acc _ _ hlen
    simpa using (List.take_of_length_le hlen).symm
  | cons w ws ih =>
    intro acc hnd habs hlen
    have hw : w ∉ acc := habs w (List.mem_cons_self w ws)
    rw [List.foldl_cons, show recentInsert acc w = (w :: acc).take 10 from if_neg hw]
    have hstep : ws.foldl recentInsert ((w :: acc).take 10) =
        (ws.reverse ++ (w :: acc).take 10).take 10 := by
      refine ih _ (List.nodup_cons.mp hnd).2 ?_ (List.length_take_le 10 (w :: acc))
      intro v hv hmem
      rcases List.mem_cons.mp (List.mem_of_mem_take hmem) with rfl | hmem2
      · exact (List.nodup_cons.mp hnd).1 hv
      · exact habs v (List.mem_cons_of_mem w hv) hmem2
    rw [hstep, take_append_take]
    have : ws.reverse ++ w :: acc = (w :: ws).reverse ++ acc := by
      rw [List.reverse_cons, List.append_assoc]
      rfl
    rw [this]

/-! ### Reachable session-memory states -/

/-- The invariant maintained by every endpoint-driven mutation: the two
pointers only ever hold the non-empty file name they were set to, and they are
only set together with an insertion into `recent`. -/
def MemInv (m : SessionMemory) : Prop :=
  (∀ s, m.last_generated = some s → s ≠ "") ∧
    (∀ s, m.last_edited = some s → s ≠ "") ∧
    (m.recent_images = [] → m.last_generated = none ∧ m.last_edited = none)

theorem memInv_init : MemInv initMemory := by
  refine ⟨fun s h => ?_, fun s h => ?_, fun _ => ⟨rfl, rfl⟩⟩
  · cases h
  · cases h

theorem memInv_applyOp {m : SessionMemory} {op : MemOp} (h : MemInv m)
    (hop : op.name ≠ "") : MemInv (applyOp m op) := by
  cases op with
  | gen f =>
    refine ⟨fun s hs => ?_, fun s hs => h.2.1 s hs, fun hnil => ?_⟩
    · cases hs
      exact hop
    · exact absurd hnil (recentInsert_ne_nil m.recent_images f)
  | edit f =>
    refine ⟨fun s hs => h.1 s hs, fun s hs => ?_, fun hnil => ?_⟩
    · cases hs
      exact hop
    · exact absurd hnil (recentInsert_ne_nil m.recent_images f)

theorem memInv_runOps (ops : List MemOp) (h : ∀ op ∈ ops, op.name ≠ "") :
    MemInv (runOps ops) := by
  suffices hgen : ∀ (l : List MemOp) (m : SessionMemory), MemInv m →
      (∀ op ∈ l, op.name ≠ "") → MemInv (l.foldl applyOp m) by
    exact hgen ops initMemory memInv_init h
  intro l
  induction l with
  | nil => intro m hm _; exact hm
  | cons op l ih =>
    intro m hm hops
    rw [List.foldl_cons]
    exact ih _ (memInv_applyOp hm (hops op (List.mem_cons_self op l)))
      (fun o ho => hops o (List.mem_cons_of_mem op ho))

theorem resolve_of_memInv {m : SessionMemory} (h : MemInv m) :
    resolveEditTarget none m =
      (match m.last_generated with
       | some g => some g
       | none => m.recent_images.head?) := by
  cases hg : m.last_generated with
  | some g =>
    have hne : g ≠ "" := h.1 g hg
    simp [resolveEditTarget, pyOrStr, SessionMemory.get_last_generated, hg, hne]
  | none =>
    cases hr : m.recent_images with
    | cons r l =>
      simp [resolveEditTarget, pyOrStr, SessionMemory.get_last_generated, hg,
        SessionMemory.get_most_recent, hr]
    | nil =>
      have hed : m.last_edited = none := (h.2.2 hr).2
      simp [resolveEditTarget, pyOrStr, SessionMemory.get_last_generated, hg,
        SessionMemory.get_most_recent, hr, hed]

/-! ### splitext on names of the shape `base ++ ".png"` -/

theorem lastDotSplit_of_not_mem : ∀ {cs : List Char}, '.' ∉ cs → lastDotSplit cs = none := by
  intro cs
  induction cs with
  | nil => intro _; rfl
  | cons c cs ih =>
    intro h
    have hc : ¬(c = '.') := fun e => h (e ▸ List.mem_cons_self c cs)
    have ht : '.' ∉ cs := fun m => h (List.mem_cons_of_mem c m)
    rw [lastDotSplit, ih ht]
    exact if_neg hc

theorem lastDotSplit_append (p q : List Char) (hq : '.' ∉ q) :
    lastDotSplit (p ++ '.' :: q) = some (p, q) := by
  induction p with
  | nil =>
    rw [List.nil_append, lastDotSplit, lastDotSplit_of_not_mem hq]
    exact if_pos rfl
  | cons c p ih =>
    rw [List.cons_append, lastDotSplit, ih]

theorem splitext_append_png (x : String) (hx : '.' ∉ x.toList) (hne : x.toList ≠ []) :
    splitext (x ++ ".png") = (x, ".png") := by
  have hlist : (x ++ ".png").toList = x.toList ++ '.' :: ['p', 'n', 'g'] := by
    have := String.data_append x ".png"
    exact this
  have h1 : lastDotSplit ((x ++ ".png").toList) = some (x.toList, ['p', 'n', 'g']) := by
    rw [hlist]
    exact lastDotSplit_append _ _ (by decide)
  obtain ⟨c, cs, hcons⟩ := List.exists_cons_of_ne_nil hne
  have hcdot : ¬(c = '.') := fun e => hx (by rw [hcons, e]; exact List.mem_cons_self _ _)
  have hall : (x.toList).all (fun d => d = '.') = false := by
    rw [List.all_eq_false]
    exact ⟨c, by rw [hcons]; exact List.mem_cons_self _ _, by simpa using hcdot⟩
  simp only [splitext, h1, hall]
  rfl

/-! ### Characterisation of the message overrides -/

theorem generateNormalize_eq (files : List String) (message : String) :
    ((message = "" ∨ genHasError message = true) →
      generateNormalize files message = genSuccessMsg files.length)
    ∧ (message ≠ "" → genHasError message = false →
      generateNormalize files message = message) := by
  constructor
  · intro h
    rcases h with h | h
    · subst h
      rw [generateNormalize, if_neg (by simp), if_pos rfl]
    · by_cases hm : message = ""
      · subst hm
        rw [generateNormalize, if_neg (by simp), if_pos rfl]
      · rw [generateNormalize, if_pos ⟨hm, h⟩]
  · intro hm hge
    rw [generateNormalize, if_neg (by simp [hge]), if_neg hm]

theorem editNormalize_eq (message : String) :
    ((message = "" ∨ editHasError message = true) →
      editNormalize message = editSuccessMsg)
    ∧ (message ≠ "" → editHasError message = false →
      editNormalize message = message) := by
  constructor
  · intro h
    rcases h with h | h
    · subst h
      rw [editNormalize, if_neg (by simp), if_pos rfl]
    · by_cases hm : message = ""
      · subst hm
        rw [editNormalize, if_neg (by simp), if_pos rfl]
      · rw [editNormalize, if_pos ⟨hm, h⟩]
  · intro hm hge
    rw [editNormalize, if_neg (by simp [hge]), if_neg hm]

theorem runOps_recent (ops : List MemOp) :
    (runOps ops).recent_images = recentRun (ops.map MemOp.name) := by
  suffices hgen : ∀ (l : List MemOp) (m : SessionMemory),
      (l.foldl applyOp m).recent_images =
        l.foldl (fun acc op => recentInsert acc op.name) m.recent_images by
    rw [runOps, recentRun, hgen ops initMemory, List.foldl_map]
    rfl
  intro l
  induction l with
  | nil => intro m; rfl
  | cons op l ih =>
    intro m
    rw [List.foldl_cons, List.foldl_cons, ih (applyOp m op)]
    congr 1
    cases op <;> rfl

/-! ## Claims -/

/-- Claim C1 counterexample: with observed artifacts `["x.png"]` and a benign
delegation message containing no failure language, both reconciliation paths
surface the delegation text unchanged rather than replacing it with the
generic success statement, so the replacement claimed for *every* delegation
message does not happen. -/
theorem c1_counterexample :
    (generateOutcome [] ["x.png"] "Here are your fashion images").2.1 =
        "Here are your fashion images"
    ∧ "Here are your fashion images" ≠ genSuccessMsg 1
    ∧ (editOutcome ["x.png"] "Here are your fashion images").2 =
        "Here are your fashion images"
    ∧ "Here are your fashion images" ≠ editSuccessMsg := by
  refine ⟨by decide, by decide, by decide, by decide⟩

/-- Claim C1 (amended): for every non-empty observed artifact set the verdict
is success, and the user-facing message is replaced with the generic success
statement exactly when the delegation message is empty or contains a failure
indicator (generate: contains "Error:", or its lower-cased text contains
"error" or "failed"; edit additionally: "cannot edit", "only generate", or
contains "I cannot"); a delegation message without these indicators is
surfaced unchanged. -/
theorem c1_truth_normalizer_success (allFiles files : List String) (message : String)
    (hne : files ≠ []) :
    (generateOutcome allFiles files message).1 = true
    ∧ ((message = "" ∨ genHasError message = true) →
        (generateOutcome allFiles files message).2.1 = genSuccessMsg files.length)
    ∧ (message ≠ "" → genHasError message = false →
        (generateOutcome allFiles files message).2.1 = message)
    ∧ ∀ f rest, files = f :: rest → f ≠ "" →
        (editOutcome files message).1 = true
        ∧ ((message = "" ∨ editHasError message = true) →
            (editOutcome files message).2 = editSuccessMsg)
        ∧ (message ≠ "" → editHasError message = false →
            (editOutcome files message).2 = message) := by
  have hemp : ¬(files.isEmpty = true) := by simpa using hne
  have hgen : generateOutcome allFiles files message =
      (true, generateNormalize files message, files.take 4) := by
    rw [generateOutcome, if_neg hemp]
  refine ⟨by rw [hgen], ?_, ?_, ?_⟩
  · intro h
    rw [hgen]
    exact (generateNormalize_eq files message).1 h
  · intro hm hge
    rw [hgen]
    exact (generateNormalize_eq files message).2 hm hge
  · intro f rest hf hfne
    subst hf
    have hedit : editOutcome (f :: rest) message =
        (true, editNormalize message) := by
      rw [editOutcome, if_pos hfne]
    refine ⟨by rw [hedit], ?_, ?_⟩
    · intro h
      rw [hedit]
      exact (editNormalize_eq message).1 h
    · intro hm hge
      rw [hedit]
      exact (editNormalize_eq message).2 hm hge

/-- Claim C1 witness: the spec's own scenario `observed=["x.png"]`,
`message="Error: cannot edit"` yields verdict success with the generic
message, free of "Error" and "cannot". -/
theorem c1_witness :
    (["x.png"] : List String) ≠ []
    ∧ (generateOutcome [] ["x.png"] "Error: cannot edit").1 = true
    ∧ (generateOutcome [] ["x.png"] "Error: cannot edit").2.1 = genSuccessMsg 1
    ∧ (editOutcome ["x.png"] "Error: cannot edit").2 = editSuccessMsg
    ∧ strContains (editOutcome ["x.png"] "Error: cannot edit").2 "Error" = false
    ∧ strContains (editOutcome ["x.png"] "Error: cannot edit").2 "cannot" = false := by
  have h := c1_truth_normalizer_success [] ["x.png"] "Error: cannot edit" (by decide)
  exact ⟨by decide, h.1, h.2.1 (Or.inr (by decide)),
    ((h.2.2.2 "x.png" [] rfl (by decide)).2.1 (Or.inr (by decide))),
    by decide, by decide⟩

/-- Claim C2 counterexample: with no observed artifacts and the non-empty
delegation message "The model could not comply", neither endpoint surfaces
the delegation message — a fixed generic failure text is surfaced instead,
so the claim that the delegation message is surfaced when non-empty is
false. -/
theorem c2_counterexample :
    (generateOutcome [] [] "The model could not comply").2.1 ≠
        "The model could not comply"
    ∧ (editOutcome [] "The model could not comply").2 ≠
        "The model could not comply" := by
  refine ⟨by decide, by decide⟩

/-- Claim C2 (amended): for every run with an empty observed artifact set the
outcome is failure, and the surfaced message is a fixed generic failure text
that does not depend on the delegation message at all (for generation it
reports how many unrelated images exist; for edit it is a fixed not-found
message); the delegation message is discarded even when non-empty. -/
theorem c2_empty_observation_failure (allFiles : List String) (m1 m2 : String) :
    (generateOutcome allFiles [] m1).1 = false
    ∧ (generateOutcome allFiles [] m1).2.1 = genFailDetail allFiles
    ∧ (generateOutcome allFiles [] m1).2.1 = (generateOutcome allFiles [] m2).2.1
    ∧ (editOutcome [] m1).1 = false
    ∧ (editOutcome [] m1).2 = "Edited image not found. The agent may still be processing."
    ∧ (editOutcome [] m1).2 = (editOutcome [] m2).2 :=
  ⟨rfl, rfl, rfl, rfl, rfl, rfl⟩

/-- Claim C3 counterexample: with exactly one matching artifact in the store,
the generation-policy poll (`min_count`/limit 4, max_wait 90) returns that
single artifact immediately at elapsed time 0, although fewer than 4 matches
are present and time remains — it does not keep polling. -/
theorem c3_counterexample :
    wait_for_images (fun _ => [("a.png", 7)]) "" 4 90 2 = (["a.png"], 0)
    ∧ ¬((4 : Nat) ≤ 1) ∧ ¬((90 : Nat) ≤ 0) := by
  refine ⟨by decide, by decide, by decide⟩

/-- Claim C3 (amended): the poller re-lists matching artifacts every
poll_interval starting at elapsed time 0, and returns as soon as the listing
is non-empty (at least one match — the limit argument only truncates the
returned list) or once elapsed time reaches max_wait; in particular, if any
match exists at the first listing it returns at elapsed time 0, and an empty
result is returned only at or after max_wait. -/
theorem c3_poller_returns_on_first_match (storeAt : Nat → Store) (sel : String)
    (limit maxWait pollInterval : Nat) (hpi : 1 ≤ pollInterval) :
    (wait_for_images storeAt sel limit maxWait pollInterval).1 =
        list_images
          (storeAt (wait_for_images storeAt sel limit maxWait pollInterval).2) sel limit
    ∧ ((wait_for_images storeAt sel limit maxWait pollInterval).1 = [] →
        maxWait ≤ (wait_for_images storeAt sel limit maxWait pollInterval).2)
    ∧ (∃ k, (wait_for_images storeAt sel limit maxWait pollInterval).2 =
          k * pollInterval
        ∧ ∀ j, j < k → list_images (storeAt (j * pollInterval)) sel limit = [])
    ∧ (list_images (storeAt 0) sel limit ≠ [] →
        (wait_for_images storeAt sel limit maxWait pollInterval).2 = 0) := by
  obtain ⟨h1, h2, k, hk, hpolls⟩ :=
    waitAux_spec storeAt sel limit maxWait pollInterval hpi maxWait 0 (by omega)
  refine ⟨h1, h2, ⟨k, by simpa using hk, fun j hj => by simpa using hpolls j hj⟩, ?_⟩
  intro hne
  rcases Nat.eq_zero_or_pos k with rfl | hkpos
  · simpa using hk
  · exact absurd (by simpa using hpolls 0 hkpos) hne

/-- Claim C3 witness: with a store that becomes non-empty at 4 seconds, the
poll (interval 2) satisfies the amended contract. -/
theorem c3_witness :
    (1 : Nat) ≤ 2
    ∧ ((wait_for_images (fun t => if 4 ≤ t then [("b.png", 1)] else []) "" 4 90 2).1 =
        list_images
          ((fun t => if 4 ≤ t then [("b.png", 1)] else [])
            ((wait_for_images (fun t => if 4 ≤ t then [("b.png", 1)] else [])
              "" 4 90 2).2)) "" 4
      ∧ ((wait_for_images (fun t => if 4 ≤ t then [("b.png", 1)] else []) "" 4 90 2).1 = [] →
          90 ≤ (wait_for_images (fun t => if 4 ≤ t then [("b.png", 1)] else []) "" 4 90 2).2)
      ∧ (∃ k, (wait_for_images (fun t => if 4 ≤ t then [("b.png", 1)] else []) "" 4 90 2).2 =
            k * 2
          ∧ ∀ j, j < k →
            list_images ((fun t => if 4 ≤ t then [("b.png", 1)] else []) (j * 2)) "" 4 = [])
      ∧ (list_images ((fun t => if 4 ≤ t then [("b.png", 1)] else []) 0) "" 4 ≠ [] →
          (wait_for_images (fun t => if 4 ≤ t then [("b.png", 1)] else []) "" 4 90 2).2 = 0)) :=
  ⟨by decide,
    c3_poller_returns_on_first_match (fun t => if 4 ≤ t then [("b.png", 1)] else [])
      "" 4 90 2 (by decide)⟩

/-- Claim C6 counterexample: after the twelve insertions
a, b, c, d, e, f, g, h, i, j, k, a — where "a" is evicted by the eleventh
distinct name and then re-inserted — the ledger's recent list is not the 10
most recently first-inserted names (it retains "a", whose first insertion is
the oldest of all, and drops "b"). -/
theorem c6_counterexample :
    recentRun evictSeq = ["a", "k", "j", "i", "h", "g", "f", "e", "d", "c"]
    ∧ specRecent evictSeq = ["k", "j", "i", "h", "g", "f", "e", "d", "c", "b"]
    ∧ recentRun evictSeq ≠ specRecent evictSeq := by
  refine ⟨by decide, by decide, by decide⟩

/-- Claim C6 (amended): inserting a name already present neither duplicates
nor reorders the recent list (both setters leave it unchanged); the list
reached by any insertion sequence has no duplicates and at most 10 entries;
and a sequence of pairwise-distinct insertions yields exactly the most recent
10, most-recent-first.  However, a name evicted past capacity re-enters at
the front when inserted again, so after an arbitrary sequence the list need
not consist of the 10 most recently first-inserted names. -/
theorem c6_ledger_amended :
    (∀ (l : List String) (x : String), x ∈ l → recentInsert l x = l)
    ∧ (∀ (m : SessionMemory) (x : String), x ∈ m.recent_images →
        (m.set_last_generated x).recent_images = m.recent_images
        ∧ (m.set_last_edited x).recent_images = m.recent_images)
    ∧ (∀ ops : List MemOp, (runOps ops).recent_images = recentRun (ops.map MemOp.name))
    ∧ (∀ ws : List String, (recentRun ws).length ≤ 10 ∧ (recentRun ws).Nodup)
    ∧ (∀ ws : List String, ws.Nodup → recentRun ws = ws.reverse.take 10) := by
  refine ⟨fun l x h => recentInsert_of_mem h, fun m x h => ?_, runOps_recent,
    fun ws => foldl_recentInsert_invariant ws [] (by simp) List.nodup_nil,
    fun ws h => ?_⟩
  · constructor
    · show recentInsert m.recent_images x = m.recent_images
      exact recentInsert_of_mem h
    · show recentInsert m.recent_images x = m.recent_images
      exact recentInsert_of_mem h
  · have := foldl_recentInsert_distinct ws [] h (by simp) (by simp)
    simpa using this

/-- Claim C6 witness: three distinct insertions leave the three names
most-recent-first. -/
theorem c6_witness :
    List.Nodup ["a", "b", "c"]
    ∧ recentRun ["a", "b", "c"] = ((["a", "b", "c"] : List String).reverse).take 10 :=
  ⟨by decide, c6_ledger_amended.2.2.2.2 ["a", "b", "c"] (by decide)⟩

/-- Claim C7: in every session-memory state reachable by endpoint mutations
with non-empty file names, the implicit edit target resolves to
`last_generated` when it is set and otherwise to the most-recent entry of the
recent list; whenever `last_generated` is set it wins, so an edited image is
never preferred over a freshly generated one. -/
theorem c7_edit_target_resolution (ops : List MemOp)
    (h : ∀ op ∈ ops, op.name ≠ "") :
    resolveEditTarget none (runOps ops) =
      (match (runOps ops).last_generated with
       | some g => some g
       | none => (runOps ops).recent_images.head?)
    ∧ ∀ g, (runOps ops).last_generated = some g →
        resolveEditTarget none (runOps ops) = some g := by
  have hinv := memInv_runOps ops h
  refine ⟨resolve_of_memInv hinv, fun g hg => ?_⟩
  rw [resolve_of_memInv hinv, hg]

/-- Claim C7 witness: generating "g.png" and then editing (producing
"e.png") leaves the implicit target at the freshly generated "g.png". -/
theorem c7_witness :
    (∀ op ∈ [MemOp.gen "g.png", MemOp.edit "e.png"], op.name ≠ "")
    ∧ (resolveEditTarget none (runOps [MemOp.gen "g.png", MemOp.edit "e.png"]) =
        (match (runOps [MemOp.gen "g.png", MemOp.edit "e.png"]).last_generated with
         | some g => some g
         | none => (runOps [MemOp.gen "g.png", MemOp.edit "e.png"]).recent_images.head?)
      ∧ ∀ g, (runOps [MemOp.gen "g.png", MemOp.edit "e.png"]).last_generated = some g →
          resolveEditTarget none (runOps [MemOp.gen "g.png", MemOp.edit "e.png"]) = some g)
    ∧ resolveEditTarget none (runOps [MemOp.gen "g.png", MemOp.edit "e.png"]) =
        some "g.png" := by
  refine ⟨by decide, c7_edit_target_resolution _ (by decide), by decide⟩

/-- Claim C10: the generate endpoint's poll uses the empty selector prefix
and no modification-time threshold, so whenever the very first listing is
non-empty — whatever the names and however old the files — the poll returns
exactly that listing at elapsed time 0 and the ledger's `last_generated` is
set to its newest name. -/
theorem c10_generate_poll_preexisting (storeAt : Nat → Store) (m : SessionMemory)
    (f : String) (rest : List String)
    (h : list_images (storeAt 0) "" 4 = f :: rest) :
    generateEndpointPoll storeAt = (f :: rest, 0)
    ∧ (m.set_last_generated f).last_generated = some f := by
  constructor
  · rw [generateEndpointPoll, wait_for_images, waitAux]
    simp [h]
  · rfl

/-- Claim C10 witness: a store holding only the stale artifact
"edited_old.png" (an edited file, old mtime) is returned immediately by the
generate poll, and `last_generated` is set to that `edited_`-prefixed name. -/
theorem c10_witness :
    list_images ((fun _ => [("edited_old.png", 5)]) 0) "" 4 = ["edited_old.png"]
    ∧ (generateEndpointPoll (fun _ => [("edited_old.png", 5)]) = (["edited_old.png"], 0)
      ∧ (initMemory.set_last_generated "edited_old.png").last_generated =
          some "edited_old.png")
    ∧ strStartsWith "edited_old.png" editSelector = true := by
  refine ⟨by decide,
    c10_generate_poll_preexisting (fun _ => [("edited_old.png", 5)]) initMemory
      "edited_old.png" [] (by decide), by decide⟩

/-- Claim C9: border trim is skipped not only for a fully blank quadrant but
whenever the content pixels all lie in a single column or all lie in a single
row; in those cases — including a quadrant with exactly one content pixel —
the full uncropped quadrant is returned. -/
theorem c9_degenerate_content_skips_trim (img : Image) (t : Nat)
    (h : (∀ p ∈ contentCoords img t, ∀ q ∈ contentCoords img t, p.1 = q.1)
       ∨ (∀ p ∈ contentCoords img t, ∀ q ∈ contentCoords img t, p.2 = q.2)) :
    remove_white_borders img t = img := by
  have hcond : (scanBounds img t).maxX ≤ (scanBounds img t).minX
      ∨ (scanBounds img t).maxY ≤ (scanBounds img t).minY := by
    cases hc : contentCoords img t with
    | nil =>
      left
      rw [scanBounds_maxX, scanBounds_minX, hc]
      exact Nat.zero_le _
    | cons c cs =>
      have hcmem : c ∈ contentCoords img t := by
        rw [hc]
        exact List.mem_cons_self _ _
      have hcw : c.1 < img.width ∧ c.2 < img.height :=
        mem_coords (mem_contentCoords hcmem).1
      rcases h with hall | hall
      · left
        have hminle : (scanBounds img t).minX ≤ c.1 := by
          rw [scanBounds_minX]
          exact foldMin_le_of_mem Prod.fst _ _ _ hcmem
        have hmin_eq : (scanBounds img t).minX = c.1 := by
          rw [scanBounds_minX] at hminle ⊢
          rcases foldMin_eq_init_or_mem Prod.fst (contentCoords img t) img.width with
            he | ⟨d, hd, he⟩
          · rw [he] at hminle
            omega
          · rw [he]
            exact hall d hd c hcmem
        have hmaxge : c.1 ≤ (scanBounds img t).maxX := by
          rw [scanBounds_maxX]
          exact foldMax_ge_of_mem Prod.fst _ _ _ hcmem
        have hmax_eq : (scanBounds img t).maxX = c.1 := by
          rw [scanBounds_maxX] at hmaxge ⊢
          rcases foldMax_eq_init_or_mem Prod.fst (contentCoords img t) 0 with
            he | ⟨d, hd, he⟩
          · rw [he] at hmaxge ⊢
            omega
          · rw [he]
            exact hall d hd c hcmem
        omega
      · right
        have hminle : (scanBounds img t).minY ≤ c.2 := by
          rw [scanBounds_minY]
          exact foldMin_le_of_mem Prod.snd _ _ _ hcmem
        have hmin_eq : (scanBounds img t).minY = c.2 := by
          rw [scanBounds_minY] at hminle ⊢
          rcases foldMin_eq_init_or_mem Prod.snd (contentCoords img t) img.height with
            he | ⟨d, hd, he⟩
          · rw [he] at hminle
            omega
          · rw [he]
            exact hall d hd c hcmem
        have hmaxge : c.2 ≤ (scanBounds img t).maxY := by
          rw [scanBounds_maxY]
          exact foldMax_ge_of_mem Prod.snd _ _ _ hcmem
        have hmax_eq : (scanBounds img t).maxY = c.2 := by
          rw [scanBounds_maxY] at hmaxge ⊢
          rcases foldMax_eq_init_or_mem Prod.snd (contentCoords img t) 0 with
            he | ⟨d, hd, he⟩
          · rw [he] at hmaxge ⊢
            omega
          · rw [he]
            exact hall d hd c hcmem
        omega
  show (if (scanBounds img t).maxX ≤ (scanBounds img t).minX
      ∨ (scanBounds img t).maxY ≤ (scanBounds img t).minY then img
    else crop img ((scanBounds img t).minX - 5) ((scanBounds img t).minY - 5)
      (min img.width ((scanBounds img t).maxX + 5))
      (min img.height ((scanBounds img t).maxY + 5))) = img
  exact if_pos hcond

/-- Claim C9 witness: an 8×8 quadrant with exactly one content pixel is
returned whole, untrimmed. -/
theorem c9_witness : remove_white_borders imgDot 240 = imgDot :=
  c9_degenerate_content_skips_trim imgDot 240 (Or.inl (by decide))

/-- Claim C4 counterexample: a 20×20 quadrant with exactly one content pixel
at (10, 10) — which does contain a pixel with a channel below 240 — is
returned at full width 20, not cropped to the claimed minimal bounding box
plus 5 pixels of padding per side (which would be 11 pixels wide). -/
theorem c4_counterexample :
    (remove_white_borders imgCxDot 240).width = 20
    ∧ (trimSpec imgCxDot 240).width = 11
    ∧ remove_white_borders imgCxDot 240 ≠ trimSpec imgCxDot 240 := by
  refine ⟨by decide, by decide, fun h => ?_⟩
  have h20 : (remove_white_borders imgCxDot 240).width = 20 := by decide
  have h11 : (trimSpec imgCxDot 240).width = 11 := by decide
  rw [h] at h20
  omega

/-- Claim C4 (amended): for every quadrant whose content pixels span at least
two distinct columns and at least two distinct rows, the scan extrema are the
attained minima/maxima of the content coordinates, and the output is the crop
to the half-open box
`[minX-5, min W (maxX+5)) × [minY-5, min H (maxY+5))` — never smaller than
the content, clamped to the image bounds, extending 5 pixels beyond the
content on the left and top but (because the crop's right and bottom
coordinates are exclusive) only 4 pixels beyond it on the right and bottom.
Quadrants whose content lies in a single row or single column are returned
untrimmed. -/
theorem c4_border_trim (img : Image) (t : Nat)
    (hx : ∃ p ∈ contentCoords img t, ∃ q ∈ contentCoords img t, p.1 < q.1)
    (hy : ∃ p ∈ contentCoords img t, ∃ q ∈ contentCoords img t, p.2 < q.2) :
    (∀ c ∈ contentCoords img t,
        (scanBounds img t).minX ≤ c.1 ∧ c.1 ≤ (scanBounds img t).maxX
        ∧ (scanBounds img t).minY ≤ c.2 ∧ c.2 ≤ (scanBounds img t).maxY)
    ∧ (∃ c ∈ contentCoords img t, c.1 = (scanBounds img t).minX)
    ∧ (∃ c ∈ contentCoords img t, c.1 = (scanBounds img t).maxX)
    ∧ (∃ c ∈ contentCoords img t, c.2 = (scanBounds img t).minY)
    ∧ (∃ c ∈ contentCoords img t, c.2 = (scanBounds img t).maxY)
    ∧ remove_white_borders img t =
        crop img ((scanBounds img t).minX - 5) ((scanBounds img t).minY - 5)
          (min img.width ((scanBounds img t).maxX + 5))
          (min img.height ((scanBounds img t).maxY + 5))
    ∧ (remove_white_borders img t).width =
        min img.width ((scanBounds img t).maxX + 5) - ((scanBounds img t).minX - 5)
    ∧ (remove_white_borders img t).height =
        min img.height ((scanBounds img t).maxY + 5) - ((scanBounds img t).minY - 5) := by
  obtain ⟨p, hp, q, hq, hpq⟩ := hx
  obtain ⟨r, hr, s, hs, hrs⟩ := hy
  have hbounds : ∀ c ∈ contentCoords img t,
      (scanBounds img t).minX ≤ c.1 ∧ c.1 ≤ (scanBounds img t).maxX
      ∧ (scanBounds img t).minY ≤ c.2 ∧ c.2 ≤ (scanBounds img t).maxY := by
    intro c hc
    refine ⟨?_, ?_, ?_, ?_⟩
    · rw [scanBounds_minX]
      exact foldMin_le_of_mem Prod.fst _ _ _ hc
    · rw [scanBounds_maxX]
      exact foldMax_ge_of_mem Prod.fst _ _ _ hc
    · rw [scanBounds_minY]
      exact foldMin_le_of_mem Prod.snd _ _ _ hc
    · rw [scanBounds_maxY]
      exact foldMax_ge_of_mem Prod.snd _ _ _ hc
  have hpw : p.1 < img.width := (mem_coords (mem_contentCoords hp).1).1
  have hrh : r.2 < img.height := (mem_coords (mem_contentCoords hr).1).2
  have hminX : ∃ c ∈ contentCoords img t, c.1 = (scanBounds img t).minX := by
    rw [scanBounds_minX]
    rcases foldMin_eq_init_or_mem Prod.fst (contentCoords img t) img.width with
      he | ⟨d, hd, he⟩
    · have := (hbounds p hp).1
      rw [scanBounds_minX, he] at this
      omega
    · exact ⟨d, hd, he.symm⟩
  have hmaxX : ∃ c ∈ contentCoords img t, c.1 = (scanBounds img t).maxX := by
    rw [scanBounds_maxX]
    rcases foldMax_eq_init_or_mem Prod.fst (contentCoords img t) 0 with
      he | ⟨d, hd, he⟩
    · have := (hbounds q hq).2.1
      rw [scanBounds_maxX, he] at this
      omega
    · exact ⟨d, hd, he.symm⟩
  have hminY : ∃ c ∈ contentCoords img t, c.2 = (scanBounds img t).minY := by
    rw [scanBounds_minY]
    rcases foldMin_eq_init_or_mem Prod.snd (contentCoords img t) img.height with
      he | ⟨d, hd, he⟩
    · have := (hbounds r hr).2.2.1
      rw [scanBounds_minY, he] at this
      omega
    · exact ⟨d, hd, he.symm⟩
  have hmaxY : ∃ c ∈ contentCoords img t, c.2 = (scanBounds img t).maxY := by
    rw [scanBounds_maxY]
    rcases foldMax_eq_init_or_mem Prod.snd (contentCoords img t) 0 with
      he | ⟨d, hd, he⟩
    · have := (hbounds s hs).2.2.2
      rw [scanBounds_maxY, he] at this
      omega
    · exact ⟨d, hd, he.symm⟩
  have hltX : (scanBounds img t).minX < (scanBounds img t).maxX := by
    have h1 := (hbounds p hp).1
    have h2 := (hbounds q hq).2.1
    omega
  have hltY : (scanBounds img t).minY < (scanBounds img t).maxY := by
    have h1 := (hbounds r hr).2.2.1
    have h2 := (hbounds s hs).2.2.2
    omega
  have hcond : ¬((scanBounds img t).maxX ≤ (scanBounds img t).minX
      ∨ (scanBounds img t).maxY ≤ (scanBounds img t).minY) := by
    omega
  have hcrop : remove_white_borders img t =
      crop img ((scanBounds img t).minX - 5) ((scanBounds img t).minY - 5)
        (min img.width ((scanBounds img t).maxX + 5))
        (min img.height ((scanBounds img t).maxY + 5)) := by
    show (if (scanBounds img t).maxX ≤ (scanBounds img t).minX
        ∨ (scanBounds img t).maxY ≤ (scanBounds img t).minY then img
      else crop img ((scanBounds img t).minX - 5) ((scanBounds img t).minY - 5)
        (min img.width ((scanBounds img t).maxX + 5))
        (min img.height ((scanBounds img t).maxY + 5))) = _
    exact if_neg hcond
  refine ⟨hbounds, hminX, hmaxX, hminY, hmaxY, hcrop, ?_, ?_⟩
  · rw [hcrop]
    rfl
  · rw [hcrop]
    rfl

/-- Claim C4 witness: the 12×12 quadrant with content pixels (2, 3) and
(4, 6) spans two columns and two rows, and its trim satisfies the amended
contract. -/
theorem c4_witness :
    (∃ p ∈ contentCoords imgPair 240, ∃ q ∈ contentCoords imgPair 240, p.1 < q.1)
    ∧ (∃ p ∈ contentCoords imgPair 240, ∃ q ∈ contentCoords imgPair 240, p.2 < q.2)
    ∧ ((∀ c ∈ contentCoords imgPair 240,
        (scanBounds imgPair 240).minX ≤ c.1 ∧ c.1 ≤ (scanBounds imgPair 240).maxX
        ∧ (scanBounds imgPair 240).minY ≤ c.2 ∧ c.2 ≤ (scanBounds imgPair 240).maxY)
    ∧ (∃ c ∈ contentCoords imgPair 240, c.1 = (scanBounds imgPair 240).minX)
    ∧ (∃ c ∈ contentCoords imgPair 240, c.1 = (scanBounds imgPair 240).maxX)
    ∧ (∃ c ∈ contentCoords imgPair 240, c.2 = (scanBounds imgPair 240).minY)
    ∧ (∃ c ∈ contentCoords imgPair 240, c.2 = (scanBounds imgPair 240).maxY)
    ∧ remove_white_borders imgPair 240 =
        crop imgPair ((scanBounds imgPair 240).minX - 5) ((scanBounds imgPair 240).minY - 5)
          (min imgPair.width ((scanBounds imgPair 240).maxX + 5))
          (min imgPair.height ((scanBounds imgPair 240).maxY + 5))
    ∧ (remove_white_borders imgPair 240).width =
        min imgPair.width ((scanBounds imgPair 240).maxX + 5)
          - ((scanBounds imgPair 240).minX - 5)
    ∧ (remove_white_borders imgPair 240).height =
        min imgPair.height ((scanBounds imgPair 240).maxY + 5)
          - ((scanBounds imgPair 240).minY - 5)) := by
  refine ⟨by decide, by decide, c4_border_trim imgPair 240 (by decide) (by decide)⟩

theorem toList_append (a b : String) : (a ++ b).toList = a.toList ++ b.toList :=
  String.data_append a b

theorem mem_toList_append {c : Char} {a b : String} :
    c ∈ (a ++ b).toList ↔ c ∈ a.toList ∨ c ∈ b.toList := by
  rw [toList_append]
  exact List.mem_append

theorem split_grid_image_eq (img : Image) (fn : String) :
    split_grid_image img fn =
      [((splitext fn).1 ++ "_" ++ "1" ++ (splitext fn).2,
          remove_white_borders (gridQuadrant img 0) 240),
       ((splitext fn).1 ++ "_" ++ "2" ++ (splitext fn).2,
          remove_white_borders (gridQuadrant img 1) 240),
       ((splitext fn).1 ++ "_" ++ "3" ++ (splitext fn).2,
          remove_white_borders (gridQuadrant img 2) 240),
       ((splitext fn).1 ++ "_" ++ "4" ++ (splitext fn).2,
          remove_white_borders (gridQuadrant img 3) 240)] := by
  simp only [split_grid_image, quadSpecs, List.enum, List.enumFrom, List.map,
    show toString ((0 : Nat) + 1) = "1" from rfl,
    show toString ((1 : Nat) + 1) = "2" from rfl,
    show toString ((2 : Nat) + 1) = "3" from rfl,
    show toString ((3 : Nat) + 1) = "4" from rfl]

/-- Claim C5: for every composite with even width `2*m` and even height
`2*n`, decomposition crops exactly 4 quadrants at origins (0,0), (m,0),
(0,n), (m,n) in row-major order, each of size `m × n` sampling the source at
the origin offset, whose regions tile the source exactly (every source pixel
lies in exactly one quadrant region); the persisted names are
`<composite-base>_<ordinal><ext>` with ordinals 1–4 in that order. -/
theorem c5_grid_decomposition (img : Image) (fn : String) (m n : Nat)
    (hw : img.width = 2 * m) (hh : img.height = 2 * n) :
    (split_grid_image img fn).map Prod.fst =
        [(splitext fn).1 ++ "_" ++ "1" ++ (splitext fn).2,
         (splitext fn).1 ++ "_" ++ "2" ++ (splitext fn).2,
         (splitext fn).1 ++ "_" ++ "3" ++ (splitext fn).2,
         (splitext fn).1 ++ "_" ++ "4" ++ (splitext fn).2]
    ∧ (split_grid_image img fn).map Prod.snd =
        [remove_white_borders (gridQuadrant img 0) 240,
         remove_white_borders (gridQuadrant img 1) 240,
         remove_white_borders (gridQuadrant img 2) 240,
         remove_white_borders (gridQuadrant img 3) 240]
    ∧ quadSpecs (img.width / 2) (img.height / 2) = [(0, 0), (m, 0), (0, n), (m, n)]
    ∧ (∀ k, k < 4 →
        (gridQuadrant img k).width = m ∧ (gridQuadrant img k).height = n
        ∧ ∀ a b : Nat, (gridQuadrant img k).pixel a b =
            img.pixel ((quadOrigin m n k).1 + a) ((quadOrigin m n k).2 + b))
    ∧ (∀ x y, x < img.width → y < img.height → ∃! k, k < 4 ∧ inQuad m n k x y) := by
  have hq : img.width / 2 = m := by
    rw [hw]
    exact Nat.mul_div_cancel_left m (by norm_num)
  have hqh : img.height / 2 = n := by
    rw [hh]
    exact Nat.mul_div_cancel_left n (by norm_num)
  refine ⟨by rw [split_grid_image_eq]; rfl, by rw [split_grid_image_eq]; rfl, ?_, ?_, ?_⟩
  · rw [hq, hqh]
    rfl
  · intro k hk
    have hk4 : k = 0 ∨ k = 1 ∨ k = 2 ∨ k = 3 := by omega
    rcases hk4 with rfl | rfl | rfl | rfl
    · refine ⟨?_, ?_, fun a b => ?_⟩ <;>
        simp [gridQuadrant, quadOrigin, quadSpecs, crop, hq, hqh]
    · refine ⟨?_, ?_, fun a b => ?_⟩ <;>
        simp [gridQuadrant, quadOrigin, quadSpecs, crop, hq, hqh]
    · refine ⟨?_, ?_, fun a b => ?_⟩ <;>
        simp [gridQuadrant, quadOrigin, quadSpecs, crop, hq, hqh]
    · refine ⟨?_, ?_, fun a b => ?_⟩ <;>
        simp [gridQuadrant, quadOrigin, quadSpecs, crop, hq, hqh]
  · intro x y hx hy
    rw [hw] at hx
    rw [hh] at hy
    rcases Nat.lt_or_ge x m with hxm | hxm <;> rcases Nat.lt_or_ge y n with hyn | hyn
    · refine ⟨0, ⟨by omega, ?_⟩, ?_⟩
      · simp only [inQuad, quadOrigin, quadSpecs, List.getD_cons_zero]
        omega
      · rintro k' ⟨hk4, hin⟩
        have hcase : k' = 0 ∨ k' = 1 ∨ k' = 2 ∨ k' = 3 := by omega
        rcases hcase with rfl | rfl | rfl | rfl <;>
        · simp only [inQuad, quadOrigin, quadSpecs, List.getD_cons_zero,
            List.getD_cons_succ] at hin
          omega
    · refine ⟨2, ⟨by omega, ?_⟩, ?_⟩
      · simp only [inQuad, quadOrigin, quadSpecs, List.getD_cons_zero,
          List.getD_cons_succ]
        omega
      · rintro k' ⟨hk4, hin⟩
        have hcase : k' = 0 ∨ k' = 1 ∨ k' = 2 ∨ k' = 3 := by omega
        rcases hcase with rfl | rfl | rfl | rfl <;>
        · simp only [inQuad, quadOrigin, quadSpecs, List.getD_cons_zero,
            List.getD_cons_succ] at hin
          omega
    · refine ⟨1, ⟨by omega, ?_⟩, ?_⟩
      · simp only [inQuad, quadOrigin, quadSpecs, List.getD_cons_zero,
          List.getD_cons_succ]
        omega
      · rintro k' ⟨hk4, hin⟩
        have hcase : k' = 0 ∨ k' = 1 ∨ k' = 2 ∨ k' = 3 := by omega
        rcases hcase with rfl | rfl | rfl | rfl <;>
        · simp only [inQuad, quadOrigin, quadSpecs, List.getD_cons_zero,
            List.getD_cons_succ] at hin
          omega
    · refine ⟨3, ⟨by omega, ?_⟩, ?_⟩
      · simp only [inQuad, quadOrigin, quadSpecs, List.getD_cons_zero,
          List.getD_cons_succ]
        omega
      · rintro k' ⟨hk4, hin⟩
        have hcase : k' = 0 ∨ k' = 1 ∨ k' = 2 ∨ k' = 3 := by omega
        rcases hcase with rfl | rfl | rfl | rfl <;>
        · simp only [inQuad, quadOrigin, quadSpecs, List.getD_cons_zero,
            List.getD_cons_succ] at hin
          omega

/-- Claim C5 witness: the 4×4 composite is decomposed into four 2×2
quadrants tiling it exactly, named `grid_1.png` … `grid_4.png`. -/
theorem c5_witness :
    imgGrid4.width = 2 * 2
    ∧ imgGrid4.height = 2 * 2
    ∧ ((split_grid_image imgGrid4 "grid.png").map Prod.fst =
        [(splitext "grid.png").1 ++ "_" ++ "1" ++ (splitext "grid.png").2,
         (splitext "grid.png").1 ++ "_" ++ "2" ++ (splitext "grid.png").2,
         (splitext "grid.png").1 ++ "_" ++ "3" ++ (splitext "grid.png").2,
         (splitext "grid.png").1 ++ "_" ++ "4" ++ (splitext "grid.png").2]
      ∧ (split_grid_image imgGrid4 "grid.png").map Prod.snd =
        [remove_white_borders (gridQuadrant imgGrid4 0) 240,
         remove_white_borders (gridQuadrant imgGrid4 1) 240,
         remove_white_borders (gridQuadrant imgGrid4 2) 240,
         remove_white_borders (gridQuadrant imgGrid4 3) 240]
      ∧ quadSpecs (imgGrid4.width / 2) (imgGrid4.height / 2) =
          [(0, 0), (2, 0), (0, 2), (2, 2)]
      ∧ (∀ k, k < 4 →
          (gridQuadrant imgGrid4 k).width = 2 ∧ (gridQuadrant imgGrid4 k).height = 2
          ∧ ∀ a b : Nat, (gridQuadrant imgGrid4 k).pixel a b =
              imgGrid4.pixel ((quadOrigin 2 2 k).1 + a) ((quadOrigin 2 2 k).2 + b))
      ∧ (∀ x y, x < imgGrid4.width → y < imgGrid4.height →
          ∃! k, k < 4 ∧ inQuad 2 2 k x y))
    ∧ (split_grid_image imgGrid4 "grid.png").map Prod.fst =
        ["grid_1.png", "grid_2.png", "grid_3.png", "grid_4.png"] := by
  refine ⟨rfl, rfl, c5_grid_decomposition imgGrid4 "grid.png" 2 2 rfl rfl, by decide⟩

/-- Claim C8: the persisted artifact names follow the published convention
bit-exactly — a generated quadrant built from timestamp `t`, random id `u`,
batch index `i` and ordinal `o` is exactly
`image_<t>_<u>_<i+1>_<o>.png`, an edited artifact built from timestamp `ts`
and a source `<b>.png` is exactly `edited_<ts>_<b>.png`, and every edited
name starts with the `edited_` selector prefix the edit endpoint's poll
uses. -/
theorem c8_naming_bitexact (t u ts src b : String) (i o : Nat)
    (ht : '.' ∉ t.toList) (hu : '.' ∉ u.toList)
    (hi : '.' ∉ (toString (i + 1)).toList)
    (hsrc : src = b ++ ".png") (hb : '.' ∉ b.toList) (hbne : b.toList ≠ []) :
    quadName (genCompositeName (tsFull t u) i) o = specGenQuadName t u (i + 1) o ".png"
    ∧ editedName ts src = specEditedName ts b ".png"
    ∧ ∀ ts2 orig : String, strStartsWith (editedName ts2 orig) editSelector = true := by
  have hxdots : '.' ∉ ("image_" ++ tsFull t u ++ "_" ++ toString (i + 1)).toList := by
    intro hmem
    rcases mem_toList_append.mp hmem with h1 | h1
    · rcases mem_toList_append.mp h1 with h2 | h2
      · rcases mem_toList_append.mp h2 with h3 | h3
        · exact absurd h3 (by decide)
        · rcases mem_toList_append.mp h3 with h4 | h4
          · rcases mem_toList_append.mp h4 with h5 | h5
            · exact ht h5
            · exact absurd h5 (by decide)
          · exact hu h4
      · exact absurd h2 (by decide)
    · exact hi h1
  have hine : ("image_" ++ tsFull t u ++ "_" ++ toString (i + 1)).toList ≠ [] :=
    List.ne_nil_of_mem
      (mem_toList_append.mpr (Or.inl (mem_toList_append.mpr (Or.inl
        (mem_toList_append.mpr (Or.inl (show 'i' ∈ ("image_" : String).toList by decide)))))))
  have hsp := splitext_append_png _ hxdots hine
  refine ⟨?_, ?_, ?_⟩
  · show (splitext (genCompositeName (tsFull t u) i)).1 ++ "_" ++ toString o ++
        (splitext (genCompositeName (tsFull t u) i)).2 = _
    rw [show genCompositeName (tsFull t u) i =
        ("image_" ++ tsFull t u ++ "_" ++ toString (i + 1)) ++ ".png" from rfl, hsp]
    simp only [specGenQuadName, tsFull, String.append_assoc]
  · subst hsrc
    show "edited_" ++ ts ++ "_" ++ (splitext (b ++ ".png")).1 ++
        (splitext (b ++ ".png")).2 = _
    rw [splitext_append_png b hb hbne]
    rfl
  · intro ts2 orig
    have hdata : (editedName ts2 orig).toList =
        ("edited_" : String).toList ++ (ts2.toList ++ ("_" : String).toList ++
          (splitext orig).1.toList ++ (splitext orig).2.toList) := by
      simp [editedName, toList_append, List.append_assoc]
    simp only [strStartsWith]
    rw [List.isPrefixOf_iff_prefix, hdata]
    exact List.prefix_append _ _

/-- Claim C8 witness: concrete timestamp, random id, index 0 and ordinal 3
produce `image_20250101_120000_000000_abcd1234_1_3.png`, and the edit of
`image_x.png` at a concrete timestamp produces
`edited_20250101_120000_image_x.png`. -/
theorem c8_witness :
    ('.' ∉ ("20250101_120000_000000" : String).toList)
    ∧ ('.' ∉ ("abcd1234" : String).toList)
    ∧ ('.' ∉ (toString ((0 : Nat) + 1)).toList)
    ∧ ("image_x.png" : String) = "image_x" ++ ".png"
    ∧ ('.' ∉ ("image_x" : String).toList)
    ∧ ("image_x" : String).toList ≠ []
    ∧ (quadName (genCompositeName (tsFull "20250101_120000_000000" "abcd1234") 0) 3 =
        specGenQuadName "20250101_120000_000000" "abcd1234" (0 + 1) 3 ".png"
      ∧ editedName "20250101_120000" "image_x.png" =
          specEditedName "20250101_120000" "image_x" ".png"
      ∧ ∀ ts2 orig : String, strStartsWith (editedName ts2 orig) editSelector = true)
    ∧ quadName (genCompositeName (tsFull "20250101_120000_000000" "abcd1234") 0) 3 =
        "image_20250101_120000_000000_abcd1234_1_3.png"
    ∧ editedName "20250101_120000" "image_x.png" = "edited_20250101_120000_image_x.png" := by
  refine ⟨by decide, by decide, by decide, by decide, by decide, by decide,
    c8_naming_bitexact "20250101_120000_000000" "abcd1234" "20250101_120000"
      "image_x.png" "image_x" 0 3 (by decide) (by decide) (by decide) (by decide)
      (by decide) (by decide), by decide, by decide⟩

end AdkAgent
